import Mathlib

/-!
Verification of the date-remapping program `src/remap-rolling.js`
(final variant: centered, column-aligned, with future-avoidance).

Modelling conventions:
* All instants are whole UTC days (integer day numbers since the Unix
  epoch).  Every millisecond quantity in the source is a multiple of
  86400000 except the cosmetic `+ 12h` inside `fmtUTCNoon`, which does
  not change the calendar day, so day-granularity arithmetic is exact.
* `Math.floor(x / y)` on integers is `Int.fdiv`; the JavaScript `%`
  operator is `Int.tmod` (sign of the dividend).
* `Date.UTC(y, m, d)` (0-based month, with JavaScript's month/day
  normalisation and rollover) is `dateUTCdays` below, built on the
  standard civil-from-days / days-from-civil calendar arithmetic.
* Text is modelled as a list of lines, each line a list of characters;
  the regexes of the source are all line-oriented (`^`/`$` with the `m`
  flag, and `.` never matching a newline), and are embedded as
  character-level matchers that follow each regex literally.
-/

namespace RemapRolling

/-- Day number (days since 1970-01-01) of the civil date `(y, m, d)`
with `m` in `1..12`; linear in `d`, so out-of-range days roll over
exactly as in the JavaScript `MakeDay` specification. -/
def daysFromCivil (y m d : Int) : Int :=
  let y2 := if m ≤ 2 then y - 1 else y
  let era := Int.fdiv y2 400
  let yoe := y2 - era * 400
  let mp := Int.emod (m + 9) 12
  let doy := Int.fdiv (153 * mp + 2) 5 + d - 1
  let doe := yoe * 365 + Int.fdiv yoe 4 - Int.fdiv yoe 100 + doy
  era * 146097 + doe - 719468

/-- Civil date `(y, m, d)` (month `1..12`) of a day number: inverse of
`daysFromCivil`, used to render the mapped dates. -/
def civilFromDays (z0 : Int) : Int × Int × Int :=
  let z := z0 + 719468
  let era := Int.fdiv z 146097
  let doe := z - era * 146097
  let yoe := Int.fdiv (doe - Int.fdiv doe 1460 + Int.fdiv doe 36524 - Int.fdiv doe 146096) 365
  let y2 := yoe + era * 400
  let doy := doe - (365 * yoe + Int.fdiv yoe 4 - Int.fdiv yoe 100)
  let mp := Int.fdiv (5 * doy + 2) 153
  let d := doy - Int.fdiv (153 * mp + 2) 5 + 1
  let m := mp + (if mp < 10 then 3 else -9)
  (if m ≤ 2 then y2 + 1 else y2, m, d)

/-- `Date.UTC(y, m, d)` as a day number: `m` is 0-based and may be any
integer (JavaScript normalises it into the year), `d` may roll over. -/
def dateUTCdays (y m d : Int) : Int :=
  daysFromCivil (y + Int.fdiv m 12) (Int.emod m 12 + 1) d

/-- `getUTCDay` of a day number: 0 = Sunday .. 6 = Saturday
(day 0, 1970-01-01, was a Thursday). -/
def weekdayOf (day : Int) : Int :=
  Int.emod (day + 4) 7

/-- `gridStartUTC(year)`: the Sunday on or before January 1. -/
def gridStartUTC (y : Int) : Int :=
  let jan1 := daysFromCivil y 1 1
  jan1 - weekdayOf jan1

/-- `weekStartUTC(day)`: the Sunday on or before `day`. -/
def weekStartUTC (day : Int) : Int :=
  day - weekdayOf day

/-- A cell of the contribution grid: `{col, row}` as produced by
`toColRow` in the source. -/
structure ColRow where
  col : Int
  row : Int
deriving DecidableEq, Repr

/-- `toColRow = i => ({ col: Math.floor(i / 7), row: i % 7 })`. -/
def toColRow (i : Int) : ColRow :=
  ⟨Int.fdiv i 7, Int.tmod i 7⟩

/-- `fromColRow = (c, r) => c * 7 + r`. -/
def fromColRow (c r : Int) : Int :=
  c * 7 + r

/-- `Math.min(...)` over a list (`0` for the empty list, which the
program never reaches: anchors are checked nonempty first). -/
def listMin : List Int → Int
  | [] => 0
  | x :: xs => xs.foldl min x

/-- `Math.max(...)` over a list (`0` for the empty list). -/
def listMax : List Int → Int
  | [] => 0
  | x :: xs => xs.foldl max x

/-- `GRID_WEEKS = 53`: visible columns of the profile grid. -/
def GRID_WEEKS : Int := 53

/-- `rightmostCol = GRID_WEEKS - 1`: the current-week column. -/
def rightmostCol : Int := 52

/-- `start2019 = gridStartUTC(2019)`: origin of the anchor-year grid. -/
def start2019 : Int := gridStartUTC 2019

/-- The grid coordinates of the anchor day indices. -/
def colRowsOf (idxs : List Int) : List ColRow :=
  idxs.map toColRow

/-- `minCol`: least column used by the drawing. -/
def minColOf (idxs : List Int) : Int :=
  listMin ((colRowsOf idxs).map ColRow.col)

/-- `maxCol`: greatest column used by the drawing. -/
def maxColOf (idxs : List Int) : Int :=
  listMax ((colRowsOf idxs).map ColRow.col)

/-- `width = maxCol - minCol + 1`: columns used by the drawing. -/
def widthOf (idxs : List Int) : Int :=
  maxColOf idxs - minColOf idxs + 1

/-- `todayRow`: current weekday index, 0 = Sunday. -/
def todayRowOf (today : Int) : Int :=
  weekdayOf today

/-- `windowStartUTC = thisSun - (GRID_WEEKS - 1) * 7` days: the leftmost
column's Sunday. -/
def windowStartOf (today : Int) : Int :=
  weekStartUTC today - (GRID_WEEKS - 1) * 7

/-- Step 1 of the shift computation: center the drawing by columns,
`shiftCols = Math.floor((GRID_WEEKS - width) / 2) - minCol`. -/
def shiftCenter (idxs : List Int) : Int :=
  Int.fdiv (GRID_WEEKS - widthOf idxs) 2 - minColOf idxs

/-- Step 2a, left clamp:
`if (minCol + shiftCols < 0) shiftCols += -(minCol + shiftCols)`. -/
def shiftClampL (idxs : List Int) : Int :=
  if minColOf idxs + shiftCenter idxs < 0 then
    shiftCenter idxs + -(minColOf idxs + shiftCenter idxs)
  else shiftCenter idxs

/-- Step 2b, right clamp (applied after the left clamp):
`if (maxCol + shiftCols > rightmostCol) shiftCols -= (maxCol + shiftCols - rightmostCol)`. -/
def shiftClampR (idxs : List Int) : Int :=
  if maxColOf idxs + shiftClampL idxs > rightmostCol then
    shiftClampL idxs - (maxColOf idxs + shiftClampL idxs - rightmostCol)
  else shiftClampL idxs

/-- `violatesFuture = p => (p.col + shiftCols === rightmostCol) && (p.row > todayRow)`. -/
def violatesFuture (todayRow s : Int) (p : ColRow) : Bool :=
  p.col + s == rightmostCol && todayRow < p.row

/-- Guard of the future-avoidance `while` loop:
`colRows.some(violatesFuture) && (minCol + shiftCols > 0)`. -/
def loopGuard (crs : List ColRow) (todayRow minCol s : Int) : Bool :=
  crs.any (violatesFuture todayRow s) && decide (0 < minCol + s)

/-- Fuel-indexed unfolding of the future-avoidance loop: each iteration
does `shiftCols -= 1`. -/
def futureLoopFuel (crs : List ColRow) (todayRow minCol : Int) : Nat → Int → Int
  | 0, s => s
  | Nat.succ n, s =>
    if loopGuard crs todayRow minCol s then futureLoopFuel crs todayRow minCol n (s - 1)
    else s

/-- The future-avoidance loop.  `(minCol + s).toNat` steps always
suffice: each iteration decrements `s` by one and requires
`0 < minCol + s`, so the guard is false once the fuel is exhausted
(proved below in `futureLoopFuel_guard_false`). -/
def futureLoop (crs : List ColRow) (todayRow minCol s : Int) : Int :=
  futureLoopFuel crs todayRow minCol (minCol + s).toNat s

/-- The final `shiftCols`, sole free parameter of the mapping. -/
def shiftColsOf (idxs : List Int) (today : Int) : Int :=
  futureLoop (colRowsOf idxs) (todayRowOf today) (minColOf idxs) (shiftClampR idxs)

/-- Index-level body of `remapOne`: the old coordinate `(col, row)`
becomes the window index `fromColRow(col + shiftCols, row)`. -/
def remapIdx (s i : Int) : Int :=
  fromColRow ((toColRow i).col + s) ((toColRow i).row)

/-! ### Text model

Lines are lists of characters.  Every regex of the source is
line-oriented (`^`/`$` under the `m` flag; `.` and `[^']`, `[^)]` never
cross a line in the template format), so each one is embedded as a
character-level matcher applied within a line, following the regex
literally.  Greedy subpatterns (`\s+`, `[^']*`, `[^)]+`) are always
followed by a character their class excludes, so maximal munch needs no
backtracking and the matchers are deterministic. -/

/-- Within-line whitespace for the regex class `\s` (line terminators
cannot occur inside a line). -/
def isWSChar (c : Char) : Bool :=
  c = ' ' || c = '\t' || c = '\x0b' || c = '\x0c'

/-- The regex class `[A-Z]`. -/
def isUpperAZ (c : Char) : Bool :=
  'A' ≤ c && c ≤ 'Z'

/-- The regex class `[a-z]`. -/
def isLowerAZ (c : Char) : Bool :=
  'a' ≤ c && c ≤ 'z'

/-- The regex class `\d`. -/
def isDigit09 (c : Char) : Bool :=
  '0' ≤ c && c ≤ '9'

/-- Consume the literal `pat` from the front; return the rest. -/
def pLit : List Char → List Char → Option (List Char)
  | [], l => some l
  | _ :: _, [] => none
  | p :: ps, c :: cs => if c = p then pLit ps cs else none

/-- Consume one character satisfying `f`. -/
def pCharC (f : Char → Bool) : List Char → Option (Char × List Char)
  | [] => none
  | c :: cs => if f c then some (c, cs) else none

/-- Greedy `\s*`: maximal run of whitespace, returned with the rest. -/
def pWSMany : List Char → List Char × List Char
  | [] => ([], [])
  | c :: cs =>
    if isWSChar c then
      let (w, r) := pWSMany cs
      (c :: w, r)
    else ([], c :: cs)

/-- Greedy `\s+`: like `pWSMany` but requires at least one character. -/
def pWS1 (l : List Char) : Option (List Char × List Char) :=
  match l with
  | [] => none
  | c :: cs =>
    if isWSChar c then
      let (w, r) := pWSMany cs
      some (c :: w, r)
    else none

/-- Greedy `[^']*`: maximal run of non-quote characters. -/
def pNoQuote : List Char → List Char × List Char
  | [] => ([], [])
  | c :: cs =>
    if c = '\'' then ([], c :: cs)
    else
      let (w, r) := pNoQuote cs
      (c :: w, r)

/-- Greedy `[^)]*`: maximal run of non-`)` characters. -/
def pNoParenMany : List Char → List Char × List Char
  | [] => ([], [])
  | c :: cs =>
    if c = ')' then ([], c :: cs)
    else
      let (w, r) := pNoParenMany cs
      (c :: w, r)

/-- Greedy `[^)]+`: maximal nonempty run of non-`)` characters. -/
def pNoParen1 (l : List Char) : Option (List Char × List Char) :=
  match l with
  | [] => none
  | c :: cs =>
    if c = ')' then none
    else
      let (w, r) := pNoParenMany cs
      some (c :: w, r)

/-- `[A-Z][a-z]{2}`: a capitalised three-letter word. -/
def pAlpha3 (l : List Char) : Option (List Char × List Char) := do
  let (a1, r) ← pCharC isUpperAZ l
  let (a2, r) ← pCharC isLowerAZ r
  let (a3, r) ← pCharC isLowerAZ r
  return ([a1, a2, a3], r)

/-- `\d{2}`: two digits. -/
def pDig2 (l : List Char) : Option (List Char × List Char) := do
  let (d1, r) ← pCharC isDigit09 l
  let (d2, r) ← pCharC isDigit09 r
  return ([d1, d2], r)

/-- `\d{2}:\d{2}:\d{2}`: the time field. -/
def pTimeHMS (l : List Char) : Option (List Char × List Char) := do
  let (t1, r) ← pDig2 l
  let r ← pLit (":".toList) r
  let (t2, r) ← pDig2 r
  let r ← pLit (":".toList) r
  let (t3, r) ← pDig2 r
  return (t1 ++ [':'] ++ t2 ++ [':'] ++ t3, r)

/-- `GMT[+-]\d{4}`: the offset field. -/
def pGMTOffset (l : List Char) : Option (List Char × List Char) := do
  let r ← pLit ("GMT".toList) l
  let (sg, r) ← pCharC (fun c => c = '+' || c = '-') r
  let (z1, r) ← pDig2 r
  let (z2, r) ← pDig2 r
  return (("GMT".toList) ++ [sg] ++ z1 ++ z2, r)

/-- `\([^)]+\)`: the zone-name annotation. -/
def pZoneAnn (l : List Char) : Option (List Char × List Char) := do
  let r ← pLit ("(".toList) l
  let (zn, r) ← pNoParen1 r
  let r ← pLit (")".toList) r
  return (('(' :: zn) ++ [')'], r)

/-- First half of `FULL_2019`:
`[A-Z][a-z]{2}\s[A-Z][a-z]{2}\s\d{2}\s2019\s`. -/
def pDateHead (l : List Char) : Option (List Char × List Char) := do
  let (dow, r) ← pAlpha3 l
  let (w1, r) ← pCharC isWSChar r
  let (mon, r) ← pAlpha3 r
  let (w2, r) ← pCharC isWSChar r
  let (dd, r) ← pDig2 r
  let (w3, r) ← pCharC isWSChar r
  let r ← pLit ("2019".toList) r
  let (w4, r) ← pCharC isWSChar r
  return (dow ++ [w1] ++ mon ++ [w2] ++ dd ++ [w3] ++ ("2019".toList) ++ [w4], r)

/-- Second half of `FULL_2019`:
`\d{2}:\d{2}:\d{2}\sGMT[+-]\d{4}\s\([^)]+\)`. -/
def pDateTail (l : List Char) : Option (List Char × List Char) := do
  let (tm, r) ← pTimeHMS l
  let (w5, r) ← pCharC isWSChar r
  let (off, r) ← pGMTOffset r
  let (w6, r) ← pCharC isWSChar r
  let (zone, r) ← pZoneAnn r
  return (tm ++ [w5] ++ off ++ [w6] ++ zone, r)

/-- The Date Token regex `FULL_2019`:
`[A-Z][a-z]{2}\s[A-Z][a-z]{2}\s\d{2}\s2019\s\d{2}:\d{2}:\d{2}\sGMT[+-]\d{4}\s\([^)]+\)`.
Returns the matched token and the rest. -/
def pDate (l : List Char) : Option (List Char × List Char) := do
  let (h, r) ← pDateHead l
  let (t, r) ← pDateTail r
  return (h ++ t, r)

/-- Head of the commit-line pattern:
`(git\s+commit\s+--date=')([^']*)`; returns group 1, group 2
(the `--date` payload) and the rest. -/
def pCommitHead (l : List Char) : Option (List Char × List Char × List Char) := do
  let r ← pLit ("git".toList) l
  let (w1, r) ← pWS1 r
  let r ← pLit ("commit".toList) r
  let (w2, r) ← pWS1 r
  let r ← pLit ("--date='".toList) r
  let (anyD, r) := pNoQuote r
  let g1 := ("git".toList) ++ w1 ++ ("commit".toList) ++ w2 ++ ("--date='".toList)
  return (g1, anyD, r)

/-- Tail of the commit-line pattern: `('\s+-m\s+')(FULL_2019)(')`;
returns group 3, group 4 (the message date) and the rest after the
final quote. -/
def pCommitTail (l : List Char) : Option (List Char × List Char × List Char) := do
  let r ← pLit ("'".toList) l
  let (w3, r) ← pWS1 r
  let r ← pLit ("-m".toList) r
  let (w4, r) ← pWS1 r
  let r ← pLit ("'".toList) r
  let (msg, r) ← pDate r
  let r ← pLit ("'".toList) r
  let g3 := ("'".toList) ++ w3 ++ ("-m".toList) ++ w4 ++ ("'".toList)
  return (g3, msg, r)

/-- The commit-line pattern
`(git\s+commit\s+--date=')([^']*)('\s+-m\s+')(FULL_2019)(')`, matched at
the current position; returns the texts of groups 1-4 and the rest
after the final quote (group 5).  Applied at a line start it is also the
anchor-extraction regex `msgRe`, whose group is the fourth component. -/
def pCommitAt (l : List Char) : Option (List Char × List Char × List Char × List Char × List Char) := do
  let (g1, anyD, r) ← pCommitHead l
  let (g3, msg, r) ← pCommitTail r
  return (g1, anyD, g3, msg, r)

/-- The echo-line pattern `(echo\s+')(FULL_2019)('\s*>>\s*foobar\.txt)`,
matched at the current position; returns groups 1-3 and the rest. -/
def pEchoAt (l : List Char) : Option (List Char × List Char × List Char × List Char) := do
  let r ← pLit ("echo".toList) l
  let (w1, r) ← pWS1 r
  let r ← pLit ("'".toList) r
  let (tok, r) ← pDate r
  let r ← pLit ("'".toList) r
  let (w2, r) := pWSMany r
  let r ← pLit (">>".toList) r
  let (w3, r) := pWSMany r
  let r ← pLit ("foobar.txt".toList) r
  let g1 := ("echo".toList) ++ w1 ++ ("'".toList)
  let g3 := ("'".toList) ++ w2 ++ (">>".toList) ++ w3 ++ ("foobar.txt".toList)
  return (g1, tok, g3, r)

/-! ### Sanitizer -/

/-- `/^mkdir\s+github_painter.*$/`. -/
def matchesMkdir (l : List Char) : Bool :=
  (do
    let r ← pLit ("mkdir".toList) l
    let (_, r) ← pWS1 r
    pLit ("github_painter".toList) r).isSome

/-- `/^cd\s+github_painter.*$/`. -/
def matchesCd (l : List Char) : Bool :=
  (do
    let r ← pLit ("cd".toList) l
    let (_, r) ← pWS1 r
    pLit ("github_painter".toList) r).isSome

/-- `/^git\s+init.*$/`. -/
def matchesGitInit (l : List Char) : Bool :=
  (do
    let r ← pLit ("git".toList) l
    let (_, r) ← pWS1 r
    pLit ("init".toList) r).isSome

/-- `/^git\s+remote\s+add\s+origin.*$/`. -/
def matchesGitRemote (l : List Char) : Bool :=
  (do
    let r ← pLit ("git".toList) l
    let (_, r) ← pWS1 r
    let r ← pLit ("remote".toList) r
    let (_, r) ← pWS1 r
    let r ← pLit ("add".toList) r
    let (_, r) ← pWS1 r
    pLit ("origin".toList) r).isSome

/-- `/^git\s+pull\s+origin.*$/`. -/
def matchesGitPull (l : List Char) : Bool :=
  (do
    let r ← pLit ("git".toList) l
    let (_, r) ← pWS1 r
    let r ← pLit ("pull".toList) r
    let (_, r) ← pWS1 r
    pLit ("origin".toList) r).isSome

/-- The five setup/network line patterns, in source order. -/
def setupPats : List (List Char → Bool) :=
  [matchesMkdir, matchesCd, matchesGitInit, matchesGitRemote, matchesGitPull]

/-- Does any of the five patterns match the line? -/
def matchesSetup (l : List Char) : Bool :=
  matchesMkdir l || matchesCd l || matchesGitInit l || matchesGitRemote l ||
    matchesGitPull l

/-- The sanitizer: the source applies
`input = input.replace(re, "")` once per pattern, in order; a matched
line's content (the whole line) is replaced by the empty string. -/
def sanitize (t : List (List Char)) : List (List Char) :=
  setupPats.foldl (fun acc p => acc.map (fun l => if p l then [] else l)) t

/-! ### Anchor extraction, date parsing, date formatting -/

/-- `msgs`: group 4 of the anchored commit-line regex, one per matching
line, in order. -/
def extractMsgs (t : List (List Char)) : List (List Char) :=
  t.filterMap (fun l => (pCommitAt l).map (fun g => g.2.2.2.1))

/-- The month-name table `MON`. -/
def MONlist : List (List Char) :=
  ["Jan", "Feb", "Mar", "Apr", "May", "Jun", "Jul", "Aug", "Sep", "Oct",
    "Nov", "Dec"].map String.toList

/-- The day-of-week table `DOW`. -/
def DOWlist : List (List Char) :=
  ["Sun", "Mon", "Tue", "Wed", "Thu", "Fri", "Sat"].map String.toList

/-- `Array.prototype.indexOf`: first index of `m`, or `-1`. -/
def monIndexAux : List (List Char) → List Char → Nat → Int
  | [], _, _ => -1
  | x :: xs, m, k => if x = m then (k : Int) else monIndexAux xs m (k + 1)

/-- `MON.indexOf(monStr)`. -/
def monIndex (m : List Char) : Int :=
  monIndexAux MONlist m 0

/-- Numeric value of a decimal digit character. -/
def digitVal (c : Char) : Int :=
  (c.toNat : Int) - 48

/-- Decimal value of a digit string (the unary `+` of the source). -/
def digitsVal (l : List Char) : Int :=
  l.foldl (fun a c => 10 * a + digitVal c) 0

/-- The regex inside `parseFullDayUTC`:
`^([A-Z][a-z]{2}) ([A-Z][a-z]{2}) (\d{2}) (\d{4}) ` with literal single
spaces.  Returns (month-name group, day-of-month, year). -/
def parseMDY (l : List Char) : Option (List Char × Int × Int) := do
  let (_, r) ← pAlpha3 l
  let r ← pLit (" ".toList) r
  let (mon, r) ← pAlpha3 r
  let r ← pLit (" ".toList) r
  let (dd, r) ← pDig2 r
  let r ← pLit (" ".toList) r
  let (y1, r) ← pDig2 r
  let (y2, r) ← pDig2 r
  let _ ← pLit (" ".toList) r
  return (mon, digitsVal dd, digitsVal (y1 ++ y2))

/-- `parseFullDayUTC`: on a regex miss, `throw new Error("Bad date: " + s)`;
otherwise `Date.UTC(yyyy, MON.indexOf(monStr), dd)` — note that an
unknown month name yields index `-1`, which JavaScript normalises to
December of the previous year instead of failing. -/
def parseFullDayUTC (l : List Char) : Except (List Char) Int :=
  match parseMDY l with
  | none => .error (("Bad date: ".toList) ++ l)
  | some (mon, dd, yyyy) => .ok (dateUTCdays yyyy (monIndex mon) dd)

/-- `String(d.getUTCDate()).padStart(2, "0")`. -/
def pad2 (d : Int) : List Char :=
  if d < 10 then '0' :: (toString d).toList else (toString d).toList

/-- The date part `dow mon dd yyyy` of the output format (noon UTC of
`day` falls on the same calendar day). -/
def fmtDatePart (day : Int) : List Char :=
  let c := civilFromDays day
  (DOWlist.getD (weekdayOf day).toNat []) ++ [' '] ++
    (MONlist.getD (c.2.1 - 1).toNat []) ++ [' '] ++ pad2 c.2.2 ++ [' '] ++
    (toString c.1).toList

/-- `fmtUTCNoon`: canonical output form with fixed time `12:00:00`,
fixed offset `GMT+0000` and fixed zone annotation `(UTC)`. -/
def fmtUTCNoon (day : Int) : List Char :=
  fmtDatePart day ++ (" 12:00:00 GMT+0000 (UTC)".toList)

/-! ### The mapping and the rewriter -/

/-- `remapOne`: parse the token, take its day index from the 2019 grid
start, shift its column by the final `shiftCols`, land it in the
window, and format it. -/
def remapOne (idxs : List Int) (today : Int) (tok : List Char) :
    Except (List Char) (List Char) :=
  match parseFullDayUTC tok with
  | .error e => .error e
  | .ok day =>
    .ok (fmtUTCNoon (windowStartOf today +
      remapIdx (shiftColsOf idxs today) (day - start2019)))

/-- Global regex replace for echo lines: scan left to right, replace
each match by `group1 ++ mapped ++ group3`, continue after it.  The
fuel only bounds the recursion; `length + 1` always suffices because
every step consumes at least one character. -/
def echoPassFuel (remap : List Char → Except (List Char) (List Char)) :
    Nat → List Char → Except (List Char) (List Char)
  | 0, l => .ok l
  | Nat.succ _, [] => .ok []
  | Nat.succ n, c :: cs =>
    match pEchoAt (c :: cs) with
    | some (g1, tok, g3, rest) =>
      match remap tok with
      | .error e => .error e
      | .ok m =>
        match echoPassFuel remap n rest with
        | .error e => .error e
        | .ok tail => .ok (g1 ++ m ++ g3 ++ tail)
    | none =>
      match echoPassFuel remap n cs with
      | .error e => .error e
      | .ok tail => .ok (c :: tail)

/-- Global regex replace for commit lines: each match becomes
`group1 ++ mapped ++ group3 ++ mapped ++ "'"` where `mapped` is the
remap of the `-m` message date (group 4); the old `--date` payload
(group 2) is discarded. -/
def commitPassFuel (remap : List Char → Except (List Char) (List Char)) :
    Nat → List Char → Except (List Char) (List Char)
  | 0, l => .ok l
  | Nat.succ _, [] => .ok []
  | Nat.succ n, c :: cs =>
    match pCommitAt (c :: cs) with
    | some (g1, _anyD, g3, msg, rest) =>
      match remap msg with
      | .error e => .error e
      | .ok m =>
        match commitPassFuel remap n rest with
        | .error e => .error e
        | .ok tail => .ok (g1 ++ m ++ g3 ++ m ++ '\'' :: tail)
    | none =>
      match commitPassFuel remap n cs with
      | .error e => .error e
      | .ok tail => .ok (c :: tail)

/-- One echo replacement pass over a line. -/
def echoPassLine (remap : List Char → Except (List Char) (List Char))
    (l : List Char) : Except (List Char) (List Char) :=
  echoPassFuel remap (l.length + 1) l

/-- One commit replacement pass over a line. -/
def commitPassLine (remap : List Char → Except (List Char) (List Char))
    (l : List Char) : Except (List Char) (List Char) :=
  commitPassFuel remap (l.length + 1) l

/-- Map a fallible function over a list, stopping at the first error
(the JavaScript `.map` whose callback may throw). -/
def mapE (f : α → Except E β) : List α → Except E (List β)
  | [] => .ok []
  | x :: xs =>
    match f x with
    | .error e => .error e
    | .ok y =>
      match mapE f xs with
      | .error e => .error e
      | .ok ys => .ok (y :: ys)

/-- Is the computation an error? -/
def isErr : Except E A → Bool
  | .error _ => true
  | .ok _ => false

/-- `main` after reading the file, as a pure function of the current
date (a day number) and the input lines: sanitize, extract anchors,
pass the text through unchanged if there are none, otherwise parse all
anchors (first failure aborts), then run the echo pass and the commit
pass; the full output is produced only at the very end, so an error
leaves no partial output. -/
def mainOutput (today : Int) (input : List (List Char)) :
    Except (List Char) (List (List Char)) :=
  let t := sanitize input
  let msgs := extractMsgs t
  if msgs = [] then .ok t
  else
    match mapE (fun s => (parseFullDayUTC s).map (fun d => d - start2019)) msgs with
    | .error e => .error e
    | .ok idxs =>
      match mapE (fun l => echoPassLine (remapOne idxs today) l) t with
      | .error e => .error e
      | .ok t2 =>
        match mapE (fun l => commitPassLine (remapOne idxs today) l) t2 with
        | .error e => .error e
        | .ok t3 => .ok t3

/-! ### Theorems -/

/-- C4: for all Day Indices `i`, converting to a Grid Coordinate and
back is the identity: `fromColRow(toColRow(i)) = i`.  Day Indices are
counts of days since the grid origin of anchor-year dates, hence
nonnegative (`0 ≤ i`). -/
theorem grid_roundtrip (i : Int) (h : 0 ≤ i) :
    fromColRow (toColRow i).col (toColRow i).row = i := by
  show Int.fdiv i 7 * 7 + Int.tmod i 7 = i
  rw [Int.fdiv_eq_ediv _ (by norm_num), Int.tmod_eq_emod h (by norm_num)]
  omega

/-- Witness for C4 at the concrete Day Index 10. -/
theorem grid_roundtrip_witness :
    fromColRow (toColRow 10).col (toColRow 10).row = 10 :=
  grid_roundtrip 10 (by decide)

/-! #### List minimum / maximum -/

theorem foldl_min_le_init (xs : List Int) (a : Int) : xs.foldl min a ≤ a := by
  induction xs generalizing a with
  | nil => exact le_rfl
  | cons x xs ih => exact le_trans (ih (min a x)) (min_le_left a x)

theorem foldl_min_le_mem {y : Int} (xs : List Int) (a : Int) (hy : y ∈ xs) :
    xs.foldl min a ≤ y := by
  induction xs generalizing a with
  | nil => cases hy
  | cons x xs ih =>
    rcases List.mem_cons.1 hy with h | h
    · subst h
      exact le_trans (foldl_min_le_init xs (min a y)) (min_le_right a y)
    · exact ih (min a x) h

theorem listMin_le {y : Int} {l : List Int} (hy : y ∈ l) : listMin l ≤ y := by
  cases l with
  | nil => cases hy
  | cons x xs =>
    rcases List.mem_cons.1 hy with h | h
    · subst h
      exact foldl_min_le_init xs y
    · exact foldl_min_le_mem xs x h

theorem foldl_min_eq_or_mem (xs : List Int) (a : Int) :
    xs.foldl min a = a ∨ xs.foldl min a ∈ xs := by
  induction xs generalizing a with
  | nil => exact Or.inl rfl
  | cons x xs ih =>
    rcases ih (min a x) with h | h
    · rcases le_total a x with hax | hxa
      · left
        rw [List.foldl_cons, h, min_eq_left hax]
      · right
        rw [List.foldl_cons, h, min_eq_right hxa]
        exact List.mem_cons_self x xs
    · exact Or.inr (List.mem_cons_of_mem x h)

theorem listMin_mem {l : List Int} (h : l ≠ []) : listMin l ∈ l := by
  cases l with
  | nil => exact absurd rfl h
  | cons x xs =>
    rcases foldl_min_eq_or_mem xs x with h1 | h1
    · rw [listMin, h1]
      exact List.mem_cons_self x xs
    · exact List.mem_cons_of_mem x h1

theorem le_foldl_max_init (xs : List Int) (a : Int) : a ≤ xs.foldl max a := by
  induction xs generalizing a with
  | nil => exact le_rfl
  | cons x xs ih => exact le_trans (le_max_left a x) (ih (max a x))

theorem mem_le_foldl_max {y : Int} (xs : List Int) (a : Int) (hy : y ∈ xs) :
    y ≤ xs.foldl max a := by
  induction xs generalizing a with
  | nil => cases hy
  | cons x xs ih =>
    rcases List.mem_cons.1 hy with h | h
    · subst h
      exact le_trans (le_max_right a y) (le_foldl_max_init xs (max a y))
    · exact ih (max a x) h

theorem le_listMax {y : Int} {l : List Int} (hy : y ∈ l) : y ≤ listMax l := by
  cases l with
  | nil => cases hy
  | cons x xs =>
    rcases List.mem_cons.1 hy with h | h
    · subst h
      exact le_foldl_max_init xs y
    · exact mem_le_foldl_max xs x h

theorem foldl_max_eq_or_mem (xs : List Int) (a : Int) :
    xs.foldl max a = a ∨ xs.foldl max a ∈ xs := by
  induction xs generalizing a with
  | nil => exact Or.inl rfl
  | cons x xs ih =>
    rcases ih (max a x) with h | h
    · rcases le_total a x with hax | hxa
      · right
        rw [List.foldl_cons, h, max_eq_right hax]
        exact List.mem_cons_self x xs
      · left
        rw [List.foldl_cons, h, max_eq_left hxa]
    · exact Or.inr (List.mem_cons_of_mem x h)

theorem listMax_mem {l : List Int} (h : l ≠ []) : listMax l ∈ l := by
  cases l with
  | nil => exact absurd rfl h
  | cons x xs =>
    rcases foldl_max_eq_or_mem xs x with h1 | h1
    · rw [listMax, h1]
      exact List.mem_cons_self x xs
    · exact List.mem_cons_of_mem x h1

/-! #### The future-avoidance loop -/

theorem loopGuard_pos {crs : List ColRow} {tr mc s : Int}
    (h : loopGuard crs tr mc s = true) : 0 < mc + s := by
  have h2 : crs.any (violatesFuture tr s) = true ∧ decide (0 < mc + s) = true := by
    simpa [loopGuard] using h
  exact of_decide_eq_true h2.2

theorem loopGuard_of_nonpos {crs : List ColRow} {tr mc s : Int}
    (h : mc + s ≤ 0) : loopGuard crs tr mc s = false := by
  have : decide (0 < mc + s) = false := decide_eq_false (by omega)
  rw [loopGuard, this, Bool.and_false]

theorem futureLoopFuel_guard_false (crs : List ColRow) (tr mc : Int) :
    ∀ (n : Nat) (s : Int), (mc + s).toNat ≤ n →
      loopGuard crs tr mc (futureLoopFuel crs tr mc n s) = false := by
  intro n
  induction n with
  | zero =>
    intro s hs
    show loopGuard crs tr mc s = false
    exact loopGuard_of_nonpos (by omega)
  | succ n ih =>
    intro s hs
    by_cases hg : loopGuard crs tr mc s = true
    · have hpos := loopGuard_pos hg
      rw [futureLoopFuel, if_pos hg]
      exact ih (s - 1) (by omega)
    · have hg' : loopGuard crs tr mc s = false := by
        exact Bool.eq_false_iff.2 hg
      rw [futureLoopFuel, if_neg (by rw [hg']; exact Bool.false_ne_true)]
      exact hg'

theorem futureLoopFuel_stable (crs : List ColRow) (tr mc : Int) :
    ∀ (n m : Nat) (s : Int), (mc + s).toNat ≤ n → (mc + s).toNat ≤ m →
      futureLoopFuel crs tr mc n s = futureLoopFuel crs tr mc m s := by
  intro n
  induction n with
  | zero =>
    intro m s hn _hm
    have hg : loopGuard crs tr mc s = false := loopGuard_of_nonpos (by omega)
    cases m with
    | zero => rfl
    | succ m =>
      rw [futureLoopFuel, futureLoopFuel, if_neg (by rw [hg]; exact Bool.false_ne_true)]
  | succ n ih =>
    intro m s hn hm
    cases m with
    | zero =>
      have hg : loopGuard crs tr mc s = false := loopGuard_of_nonpos (by omega)
      rw [futureLoopFuel, futureLoopFuel, if_neg (by rw [hg]; exact Bool.false_ne_true)]
    | succ m =>
      by_cases hg : loopGuard crs tr mc s = true
      · have hpos := loopGuard_pos hg
        rw [futureLoopFuel, futureLoopFuel, if_pos hg, if_pos hg]
        exact ih m (s - 1) (by omega) (by omega)
      · rw [futureLoopFuel, futureLoopFuel, if_neg hg, if_neg hg]

theorem futureLoop_eq_fuel (crs : List ColRow) (tr mc s : Int) (n : Nat)
    (h : (mc + s).toNat ≤ n) :
    futureLoopFuel crs tr mc n s = futureLoop crs tr mc s :=
  futureLoopFuel_stable crs tr mc n (mc + s).toNat s h le_rfl

theorem futureLoop_guard_false (crs : List ColRow) (tr mc s : Int) :
    loopGuard crs tr mc (futureLoop crs tr mc s) = false :=
  futureLoopFuel_guard_false crs tr mc (mc + s).toNat s le_rfl

theorem futureLoopFuel_lower_bound (crs : List ColRow) (tr mc : Int) :
    ∀ (n : Nat) (s : Int),
      futureLoopFuel crs tr mc n s = s ∨ -mc ≤ futureLoopFuel crs tr mc n s := by
  intro n
  induction n with
  | zero => exact fun s => Or.inl rfl
  | succ n ih =>
    intro s
    by_cases hg : loopGuard crs tr mc s = true
    · have hpos := loopGuard_pos hg
      rw [futureLoopFuel, if_pos hg]
      rcases ih (s - 1) with h | h
      · right
        omega
      · exact Or.inr h
    · rw [futureLoopFuel, if_neg hg]
      exact Or.inl rfl

theorem futureLoopFuel_nonneg (crs : List ColRow) (tr mc : Int) :
    ∀ (n : Nat) (s : Int), 0 ≤ mc + s → 0 ≤ mc + futureLoopFuel crs tr mc n s := by
  intro n
  induction n with
  | zero => exact fun s hs => hs
  | succ n ih =>
    intro s hs
    by_cases hg : loopGuard crs tr mc s = true
    · have hpos := loopGuard_pos hg
      rw [futureLoopFuel, if_pos hg]
      exact ih (s - 1) (by omega)
    · rw [futureLoopFuel, if_neg hg]
      exact hs

/-- C10: the future-avoidance while-loop always terminates.  The guard
is false at the loop's result; each iteration decrements `shiftCols`,
and once the loop has run it can never go below `-minCol` (if it never
ran, the shift is unchanged); `(minCol + shift).toNat` iterations always
suffice: any fuel at least that large yields the loop's fixpoint. -/
theorem future_loop_terminates (crs : List ColRow) (tr mc s : Int) :
    loopGuard crs tr mc (futureLoop crs tr mc s) = false ∧
    (futureLoop crs tr mc s = s ∨ -mc ≤ futureLoop crs tr mc s) ∧
    ∀ n : Nat, (mc + s).toNat ≤ n →
      futureLoopFuel crs tr mc n s = futureLoop crs tr mc s :=
  ⟨futureLoop_guard_false crs tr mc s,
   futureLoopFuel_lower_bound crs tr mc (mc + s).toNat s,
   fun n hn => futureLoop_eq_fuel crs tr mc s n hn⟩

/-- Witness for C10 at a concrete configuration (one pixel at the
rightmost column below today's row, forcing one decrement). -/
theorem future_loop_terminates_witness :
    loopGuard [⟨52, 3⟩] 0 2 (futureLoop [⟨52, 3⟩] 0 2 0) = false ∧
    (futureLoop [⟨52, 3⟩] 0 2 0 = 0 ∨ -2 ≤ futureLoop [⟨52, 3⟩] 0 2 0) ∧
    futureLoopFuel [⟨52, 3⟩] 0 2 5 0 = futureLoop [⟨52, 3⟩] 0 2 0 := by
  have h := future_loop_terminates [⟨52, 3⟩] 0 2 0
  exact ⟨h.1, h.2.1, h.2.2 5 (by decide)⟩

/-! #### No-future invariant (C2) -/

/-- C2, counterexample to the flat no-future invariant: with anchors at
day indices 2 (Tue Jan 01 2019, column 0) and 365 (Mon Dec 30 2019,
column 52 row 1) and "today" a Sunday (day 3 = 1970-01-04, todayRow 0),
the drawing spans the full 53 columns, the shift is 0 and the loop is
blocked at once by the left-bound floor (`minCol + shift = 0`): the
mapped coordinate of anchor 365 sits in the rightmost column at row
1 > todayRow, violating the claimed invariant. -/
theorem no_future_counterexample :
    (toColRow (remapIdx (shiftColsOf [2, 365] 3) 365)).col = rightmostCol ∧
    todayRowOf 3 < (toColRow (remapIdx (shiftColsOf [2, 365] 3) 365)).row := by
  decide

/-- C2, amended: after the future-avoidance pass, a mapped coordinate
can sit in the rightmost column at a row strictly above today's row
only when the pass was blocked by the left-bound floor, i.e. when
`minCol + shiftCols ≤ 0`.  (The pass decrements the shift while a
violation exists and `minCol + shiftCols > 0`.) -/
theorem no_future_unless_blocked (idxs : List Int) (today : Int) (i : Int)
    (hi : i ∈ idxs)
    (hcol : (toColRow i).col + shiftColsOf idxs today = rightmostCol)
    (hrow : todayRowOf today < (toColRow i).row) :
    minColOf idxs + shiftColsOf idxs today ≤ 0 := by
  have hg : loopGuard (colRowsOf idxs) (todayRowOf today) (minColOf idxs)
      (shiftColsOf idxs today) = false :=
    futureLoop_guard_false (colRowsOf idxs) (todayRowOf today) (minColOf idxs)
      (shiftClampR idxs)
  have hmem : toColRow i ∈ colRowsOf idxs := List.mem_map_of_mem toColRow hi
  have hviol : (colRowsOf idxs).any
      (violatesFuture (todayRowOf today) (shiftColsOf idxs today)) = true := by
    refine List.any_eq_true.2 ⟨toColRow i, hmem, ?_⟩
    rw [violatesFuture]
    have h1 : ((toColRow i).col + shiftColsOf idxs today == rightmostCol) = true := by
      exact beq_iff_eq.2 hcol
    have h2 : decide (todayRowOf today < (toColRow i).row) = true := decide_eq_true hrow
    rw [h1]
    simpa using hrow
  by_contra hle
  have hpos : (0 < minColOf idxs + shiftColsOf idxs today) := by omega
  rw [loopGuard, hviol, Bool.true_and, decide_eq_true hpos] at hg
  cases hg

/-- Witness for C2 (amended) at the blocked configuration of the
counterexample: the conclusion `minCol + shiftCols ≤ 0` holds there. -/
theorem no_future_unless_blocked_witness :
    minColOf [2, 365] + shiftColsOf [2, 365] 3 ≤ 0 :=
  no_future_unless_blocked [2, 365] 3 365 (by decide) (by decide) (by decide)

/-! #### Clamp bounds (C3) -/

theorem colRowsOf_ne_nil {idxs : List Int} (h : idxs ≠ []) :
    (colRowsOf idxs).map ColRow.col ≠ [] := by
  cases idxs with
  | nil => exact absurd rfl h
  | cons x xs => simp [colRowsOf]

theorem minCol_le_maxCol {idxs : List Int} (h : idxs ≠ []) :
    minColOf idxs ≤ maxColOf idxs :=
  le_listMax (listMin_mem (colRowsOf_ne_nil h))

theorem minCol_le_col {idxs : List Int} {p : ColRow} (hp : p ∈ colRowsOf idxs) :
    minColOf idxs ≤ p.col :=
  listMin_le (List.mem_map_of_mem ColRow.col hp)

theorem col_le_maxCol {idxs : List Int} {p : ColRow} (hp : p ∈ colRowsOf idxs) :
    p.col ≤ maxColOf idxs :=
  le_listMax (List.mem_map_of_mem ColRow.col hp)

/-- When the drawing fits (`width ≤ GRID_WEEKS`), neither clamp fires:
the centered shift already satisfies both bounds. -/
theorem shiftClampR_of_width_le {idxs : List Int} (hne : idxs ≠ [])
    (hw : widthOf idxs ≤ GRID_WEEKS) :
    shiftClampR idxs = shiftCenter idxs ∧
    0 ≤ minColOf idxs + shiftCenter idxs ∧
    maxColOf idxs + shiftCenter idxs ≤ rightmostCol := by
  have hmM := minCol_le_maxCol hne
  have hw' : maxColOf idxs - minColOf idxs + 1 ≤ 53 := hw
  have hc : minColOf idxs + shiftCenter idxs =
      (53 - (maxColOf idxs - minColOf idxs + 1)) / 2 := by
    rw [shiftCenter, widthOf, GRID_WEEKS, Int.fdiv_eq_ediv _ (by norm_num)]
    ring
  have h0 : 0 ≤ minColOf idxs + shiftCenter idxs := by
    rw [hc]; omega
  have h1 : maxColOf idxs + shiftCenter idxs ≤ rightmostCol := by
    have : maxColOf idxs + shiftCenter idxs =
        (maxColOf idxs - minColOf idxs) + (minColOf idxs + shiftCenter idxs) := by ring
    rw [this, hc, rightmostCol]
    omega
  refine ⟨?_, h0, h1⟩
  have hL : shiftClampL idxs = shiftCenter idxs := by
    rw [shiftClampL, if_neg (by omega)]
  rw [shiftClampR, hL, if_neg (by omega)]

/-- When the drawing is wider than the window, both clamps fire and it
is the right-bound correction, applied second, that wins: the rightmost
mapped column lands exactly on `rightmostCol` and the leftmost mapped
column is pushed to `GRID_WEEKS - width < 0`. -/
theorem shiftClampR_oversized {idxs : List Int} (hne : idxs ≠ [])
    (hw : GRID_WEEKS < widthOf idxs) :
    maxColOf idxs + shiftClampR idxs = rightmostCol ∧
    minColOf idxs + shiftClampR idxs = GRID_WEEKS - widthOf idxs := by
  have hmM := minCol_le_maxCol hne
  have hw' : 53 < maxColOf idxs - minColOf idxs + 1 := hw
  have hc : minColOf idxs + shiftCenter idxs =
      (53 - (maxColOf idxs - minColOf idxs + 1)) / 2 := by
    rw [shiftCenter, widthOf, GRID_WEEKS, Int.fdiv_eq_ediv _ (by norm_num)]
    ring
  have hneg : minColOf idxs + shiftCenter idxs < 0 := by
    rw [hc]; omega
  have hL : shiftClampL idxs = -minColOf idxs := by
    rw [shiftClampL, if_pos hneg]
    ring
  have hfire : maxColOf idxs + shiftClampL idxs > rightmostCol := by
    rw [hL, rightmostCol]; omega
  have hR : shiftClampR idxs =
      shiftClampL idxs - (maxColOf idxs + shiftClampL idxs - rightmostCol) := by
    rw [shiftClampR, if_pos hfire]
  constructor
  · rw [hR]; ring
  · rw [hR, hL, widthOf, GRID_WEEKS, rightmostCol]; ring

/-- C3, corrected: after the two clamp corrections, every mapped column
lies in `[0, rightmostCol]` whenever the drawing's width is at most the
window's column count; when the width exceeds the column count it is
the right-bound correction (applied second) that dominates: the
rightmost mapped column equals `rightmostCol` exactly and the leftmost
mapped column goes below 0 (to `GRID_WEEKS - width`).  The original
claim has the oversized case backwards. -/
theorem clamp_bounds (idxs : List Int) (hne : idxs ≠ []) :
    (widthOf idxs ≤ GRID_WEEKS →
      ∀ p ∈ colRowsOf idxs,
        0 ≤ p.col + shiftClampR idxs ∧ p.col + shiftClampR idxs ≤ rightmostCol) ∧
    (GRID_WEEKS < widthOf idxs →
      maxColOf idxs + shiftClampR idxs = rightmostCol ∧
      minColOf idxs + shiftClampR idxs = GRID_WEEKS - widthOf idxs ∧
      minColOf idxs + shiftClampR idxs < 0) := by
  constructor
  · intro hw p hp
    obtain ⟨heq, h0, h1⟩ := shiftClampR_of_width_le hne hw
    have hpm := minCol_le_col hp
    have hpM := col_le_maxCol hp
    rw [heq]
    omega
  · intro hw
    obtain ⟨h1, h2⟩ := shiftClampR_oversized hne hw
    refine ⟨h1, h2, ?_⟩
    have hw53 : (53 : Int) < widthOf idxs := hw
    rw [h2, GRID_WEEKS]
    omega

/-- C3, counterexample to the original oversized-case claim ("the
left-bound correction dominates ... the leftmost mapped column stays
≥ 0"): with anchors at day indices 0 and 371 the drawing is 54 columns
wide and after both clamps the leftmost mapped column is -1 < 0 (while
the rightmost is exactly 52). -/
theorem clamp_bounds_counterexample :
    GRID_WEEKS < widthOf [0, 371] ∧
    (toColRow 0).col + shiftClampR [0, 371] < 0 ∧
    maxColOf [0, 371] + shiftClampR [0, 371] = rightmostCol := by
  decide

/-- Witness for C3 (corrected): the in-bounds part at anchors
`[2, 30]` (width 5) for the coordinate of anchor 2, and the oversized
part at anchors `[0, 371]` (width 54). -/
theorem clamp_bounds_witness :
    (0 ≤ (toColRow 2).col + shiftClampR [2, 30] ∧
      (toColRow 2).col + shiftClampR [2, 30] ≤ rightmostCol) ∧
    (maxColOf [0, 371] + shiftClampR [0, 371] = rightmostCol ∧
      minColOf [0, 371] + shiftClampR [0, 371] = GRID_WEEKS - widthOf [0, 371] ∧
      minColOf [0, 371] + shiftClampR [0, 371] < 0) :=
  ⟨(clamp_bounds [2, 30] (by decide)).1 (by decide) (toColRow 2)
      (by decide),
   (clamp_bounds [0, 371] (by decide)).2 (by decide)⟩

/-! #### Rigid translation (C1) -/

theorem toColRow_row_bounds (i : Int) (h : 0 ≤ i) :
    0 ≤ (toColRow i).row ∧ (toColRow i).row < 7 := by
  show 0 ≤ Int.tmod i 7 ∧ Int.tmod i 7 < 7
  rw [Int.tmod_eq_emod h (by norm_num)]
  omega

theorem toColRow_col_bounds (i : Int) (h0 : 0 ≤ i) (h1 : i ≤ 370) :
    0 ≤ (toColRow i).col ∧ (toColRow i).col ≤ 52 := by
  show 0 ≤ Int.fdiv i 7 ∧ Int.fdiv i 7 ≤ 52
  rw [Int.fdiv_eq_ediv _ (by norm_num)]
  omega

/-- Anchor-year dates have day indices in `[0, 370]` (the 2019 grid
spans indices 2..366), so the drawing is at most 53 columns wide. -/
theorem width_le_of_range {idxs : List Int} (hne : idxs ≠ [])
    (hr : ∀ i ∈ idxs, 0 ≤ i ∧ i ≤ 370) : widthOf idxs ≤ GRID_WEEKS := by
  have hcols : ∀ x ∈ (colRowsOf idxs).map ColRow.col, 0 ≤ x ∧ x ≤ 52 := by
    intro x hx
    rcases List.mem_map.1 hx with ⟨p, hp, rfl⟩
    rcases List.mem_map.1 hp with ⟨i, hi, rfl⟩
    exact toColRow_col_bounds i (hr i hi).1 (hr i hi).2
  have hmc : 0 ≤ minColOf idxs ∧ minColOf idxs ≤ 52 :=
    hcols _ (listMin_mem (colRowsOf_ne_nil hne))
  have hMc : 0 ≤ maxColOf idxs ∧ maxColOf idxs ≤ 52 :=
    hcols _ (listMax_mem (colRowsOf_ne_nil hne))
  rw [widthOf, GRID_WEEKS]
  omega

/-- For a drawing that fits the window, the final shift still keeps the
leftmost column nonnegative: the clamps establish it and the
future-avoidance loop preserves it. -/
theorem minCol_add_shift_nonneg {idxs : List Int} (today : Int)
    (hne : idxs ≠ []) (hw : widthOf idxs ≤ GRID_WEEKS) :
    0 ≤ minColOf idxs + shiftColsOf idxs today := by
  obtain ⟨heq, h0, _⟩ := shiftClampR_of_width_le hne hw
  have h2 : 0 ≤ minColOf idxs + shiftClampR idxs := by rw [heq]; exact h0
  rw [shiftColsOf, futureLoop]
  exact futureLoopFuel_nonneg _ _ _ _ _ h2

/-- When the shifted column stays nonnegative, `toColRow` inverts the
`fromColRow(col + s, row)` step exactly: the mapped cell is
`(col + s, row)`. -/
theorem toColRow_remapIdx (s i : Int) (hi : 0 ≤ i)
    (hcs : 0 ≤ (toColRow i).col + s) :
    toColRow (remapIdx s i) = ⟨(toColRow i).col + s, (toColRow i).row⟩ := by
  have hr := toColRow_row_bounds i hi
  rw [remapIdx, fromColRow]
  set c := (toColRow i).col with hc
  set r := (toColRow i).row with hrdef
  have hval : 0 ≤ (c + s) * 7 + r := by omega
  rw [toColRow]
  congr 1
  · rw [Int.fdiv_eq_ediv _ (by norm_num)]
    omega
  · rw [Int.tmod_eq_emod hval (by norm_num)]
    omega

/-- C1: the mapping is a rigid horizontal translation on anchors.  For
anchor dates (day indices in the anchor-year grid, hence in
`[0, 370]`), the mapped coordinates keep each row unchanged and
preserve column deltas: only the single uniform column shift
`shiftCols` is applied. -/
theorem rigid_translation (idxs : List Int) (today : Int)
    (hr : ∀ i ∈ idxs, 0 ≤ i ∧ i ≤ 370)
    (i1 i2 : Int) (h1 : i1 ∈ idxs) (h2 : i2 ∈ idxs) :
    (toColRow (remapIdx (shiftColsOf idxs today) i1)).row = (toColRow i1).row ∧
    (toColRow (remapIdx (shiftColsOf idxs today) i2)).row = (toColRow i2).row ∧
    (toColRow (remapIdx (shiftColsOf idxs today) i2)).col -
        (toColRow (remapIdx (shiftColsOf idxs today) i1)).col =
      (toColRow i2).col - (toColRow i1).col := by
  have hne : idxs ≠ [] := by
    intro h
    exact List.not_mem_nil i1 (h ▸ h1)
  have hw := width_le_of_range hne hr
  have hmc := minCol_add_shift_nonneg today hne hw
  have key : ∀ i ∈ idxs,
      toColRow (remapIdx (shiftColsOf idxs today) i) =
        ⟨(toColRow i).col + shiftColsOf idxs today, (toColRow i).row⟩ := by
    intro i hi
    apply toColRow_remapIdx _ _ (hr i hi).1
    have hcm : minColOf idxs ≤ (toColRow i).col :=
      minCol_le_col (List.mem_map_of_mem toColRow hi)
    omega
  rw [key i1 h1, key i2 h2]
  exact ⟨rfl, rfl, by ring⟩

/-- Witness for C1 at anchors `[2, 30]` (Jan 01 and Jan 29, 2019) with
"today" = day 3 (Sun 1970-01-04). -/
theorem rigid_translation_witness :
    (toColRow (remapIdx (shiftColsOf [2, 30] 3) 2)).row = (toColRow 2).row ∧
    (toColRow (remapIdx (shiftColsOf [2, 30] 3) 30)).row = (toColRow 30).row ∧
    (toColRow (remapIdx (shiftColsOf [2, 30] 3) 30)).col -
        (toColRow (remapIdx (shiftColsOf [2, 30] 3) 2)).col =
      (toColRow 30).col - (toColRow 2).col :=
  rigid_translation [2, 30] 3 (by decide) 2 30 (by decide) (by decide)

/-! #### Sanitizer (C8, C9) -/

/-- The five sequential whole-text replaces are equivalent to one
simultaneous per-line test: a line matching any setup pattern is
blanked, every other line is untouched. -/
theorem sanitize_eq_map (t : List (List Char)) :
    sanitize t = t.map (fun l => if matchesSetup l then [] else l) := by
  show (((((t.map fun l => if matchesMkdir l then [] else l).map
      fun l => if matchesCd l then [] else l).map
      fun l => if matchesGitInit l then [] else l).map
      fun l => if matchesGitRemote l then [] else l).map
      fun l => if matchesGitPull l then [] else l) =
    t.map fun l => if matchesSetup l then [] else l
  simp only [List.map_map]
  apply List.map_congr_left
  intro l _
  simp only [Function.comp_apply]
  by_cases h1 : matchesMkdir l
  · simp [h1, matchesSetup, ite_self]
  · by_cases h2 : matchesCd l
    · simp [h1, h2, matchesSetup, ite_self]
    · by_cases h3 : matchesGitInit l
      · simp [h1, h2, h3, matchesSetup, ite_self]
      · by_cases h4 : matchesGitRemote l
        · simp [h1, h2, h3, h4, matchesSetup, ite_self]
        · by_cases h5 : matchesGitPull l
          · simp [h1, h2, h3, h4, h5, matchesSetup, ite_self]
          · simp [h1, h2, h3, h4, h5, matchesSetup]

/-- C8: the Sanitizer removes every whole line matching any of the five
setup/network patterns (each anchored at line start), replacing its
content with the empty line, and leaves every other line, including
blank lines, untouched. -/
theorem sanitizer_removes_setup_lines (t : List (List Char)) :
    sanitize t = t.map (fun l => if matchesSetup l then [] else l) :=
  sanitize_eq_map t

/-- C9: sanitization is idempotent — a second pass changes nothing, and
no line matching any setup pattern remains after one pass. -/
theorem sanitize_idempotent (t : List (List Char)) :
    sanitize (sanitize t) = sanitize t ∧
    ∀ l ∈ sanitize t, matchesSetup l = false := by
  have hempty : matchesSetup ([] : List Char) = false := by decide
  constructor
  · rw [sanitize_eq_map t, sanitize_eq_map, List.map_map]
    apply List.map_congr_left
    intro l _
    simp only [Function.comp_apply]
    by_cases h : matchesSetup l
    · simp [h, hempty]
    · simp [h]
  · intro l hl
    rw [sanitize_eq_map t] at hl
    rcases List.mem_map.1 hl with ⟨l0, _, rfl⟩
    by_cases h : matchesSetup l0
    · simp [h, hempty]
    · simp [h]

/-- Witness for C9 at a concrete template: one setup line, one plain
line; the setup line is blanked and the blank no longer matches. -/
theorem sanitize_idempotent_witness :
    sanitize (sanitize [("git init".toList), ("hello".toList)]) =
      sanitize [("git init".toList), ("hello".toList)] ∧
    matchesSetup ([] : List Char) = false := by
  have h := sanitize_idempotent [("git init".toList), ("hello".toList)]
  exact ⟨h.1, h.2 [] (by decide)⟩

/-! #### Pass-through on empty anchor set (C7) -/

/-- C7: if the Anchor Extractor finds no commit-message dates in the
sanitized text, the program emits the sanitized text unchanged and
succeeds (`.ok`), with no further processing. -/
theorem empty_anchor_passthrough (today : Int) (input : List (List Char))
    (h : extractMsgs (sanitize input) = []) :
    mainOutput today input = .ok (sanitize input) := by
  simp only [mainOutput]
  rw [if_pos h]

/-- Witness for C7 at a concrete template with a setup line and a plain
line (no anchors). -/
theorem empty_anchor_passthrough_witness :
    mainOutput 3 [("mkdir github_painter".toList), ("hello world".toList)] =
      .ok (sanitize [("mkdir github_painter".toList), ("hello world".toList)]) :=
  empty_anchor_passthrough 3
    [("mkdir github_painter".toList), ("hello world".toList)] (by decide)

/-! #### Parse errors (C6) -/

theorem isErr_map {E A B : Type} (f : A → B) (e : Except E A) :
    isErr (Except.map f e) = isErr e := by
  cases e <;> rfl

/-- If any element makes `f` fail, the fallible map fails. -/
theorem mapE_error {A B E : Type} (f : A → Except E B) (xs : List A)
    (hex : ∃ x ∈ xs, isErr (f x) = true) : isErr (mapE f xs) = true := by
  induction xs with
  | nil =>
    obtain ⟨x, hx, _⟩ := hex
    cases hx
  | cons x xs ih =>
    obtain ⟨y, hy, he⟩ := hex
    rw [mapE]
    cases hfx : f x with
    | error e => rfl
    | ok v =>
      rcases List.mem_cons.1 hy with h | h
      · subst h
        rw [hfx] at he
        cases he
      · have hrec := ih ⟨y, h, he⟩
        cases hr : mapE f xs with
        | error e => rfl
        | ok ys =>
          rw [hr] at hrec
          cases hrec

/-- C6, amended: parsing raises ParseError exactly on failure of the
prefix grammar `<Dow> <Mon> <DD> <YYYY> ` (single spaces); a month name
outside the table does NOT raise (see the counterexample).  When any
anchor's parse fails the run aborts with an error — the output is
produced only at the very end, so nothing partial is written. -/
theorem parse_error_aborts (today : Int) (input : List (List Char))
    (hex : ∃ msg ∈ extractMsgs (sanitize input),
      isErr (parseFullDayUTC msg) = true) :
    isErr (mainOutput today input) = true ∧
    ∀ s : List Char, parseMDY s = none →
      parseFullDayUTC s = .error (("Bad date: ".toList) ++ s) := by
  constructor
  · obtain ⟨msg, hmem, herr⟩ := hex
    have hne : extractMsgs (sanitize input) ≠ [] := by
      intro h
      rw [h] at hmem
      cases hmem
    simp only [mainOutput]
    rw [if_neg hne]
    have hmapErr : isErr (mapE
        (fun s => (parseFullDayUTC s).map (fun d => d - start2019))
        (extractMsgs (sanitize input))) = true := by
      apply mapE_error
      refine ⟨msg, hmem, ?_⟩
      rw [isErr_map]
      exact herr
    cases hm : mapE (fun s => (parseFullDayUTC s).map (fun d => d - start2019))
        (extractMsgs (sanitize input)) with
    | error e => rfl
    | ok idxs =>
      rw [hm] at hmapErr
      cases hmapErr
  · intro s hs
    rw [parseFullDayUTC, hs]

/-- C6, counterexample to "a month name not in the fixed 12-entry month
table raises a ParseError": the token below passes the prefix grammar,
`MON.indexOf("Foo")` is `-1`, and parsing SUCCEEDS, yielding
day 17880 = Sat Dec 15 2018 (JavaScript normalises month `-1` to
December of the previous year). -/
theorem parse_month_counterexample :
    monIndex ("Foo".toList) = -1 ∧
    parseFullDayUTC ("Mon Foo 15 2019 00:00:00 GMT+0000 (UTC)".toList) =
      .ok 17880 := by
  exact ⟨rfl, rfl⟩

/-- Witness for C6 (amended) on a template whose anchor token separates
two fields with a tab: the token matches `FULL_2019` (whose separators
are `\s`) but fails the parse regex (literal spaces), so the run aborts
with an error. -/
theorem parse_error_aborts_witness :
    isErr (mainOutput 3
      [("git commit --date='x' -m 'Mon\tJan 07 2019 00:00:00 GMT+0000 (UTC)'".toList)]) = true ∧
    parseFullDayUTC ("x".toList) = .error (("Bad date: ".toList) ++ ("x".toList)) := by
  have h := parse_error_aborts 3
    [("git commit --date='x' -m 'Mon\tJan 07 2019 00:00:00 GMT+0000 (UTC)'".toList)]
    (by decide)
  exact ⟨h.1, h.2 ("x".toList) (by decide)⟩

/-! #### Commit-line rewriting (C5) -/

/-- C5: a matched commit line is rewritten as
`group1 ++ mapped ++ group3 ++ mapped ++ "'"`: both the `--date` field
and the `-m` field receive the SAME mapped value, derived from the
`-m` field's original date (group 4) — the old `--date` payload
(group 2) does not appear in the output at all; and every formatted
replacement carries the fixed time `12:00:00`, offset `GMT+0000` and
zone annotation `(UTC)`. -/
theorem commit_rewrite (remap : List Char → Except (List Char) (List Char))
    (n : Nat) (l g1 anyD g3 msg rest mapped tail : List Char)
    (hm : pCommitAt l = some (g1, anyD, g3, msg, rest))
    (hr : remap msg = .ok mapped)
    (ht : commitPassFuel remap n rest = .ok tail) :
    commitPassFuel remap (n + 1) l =
      .ok (g1 ++ mapped ++ g3 ++ mapped ++ '\'' :: tail) ∧
    ∀ day : Int,
      fmtUTCNoon day = fmtDatePart day ++ (" 12:00:00 GMT+0000 (UTC)".toList) := by
  constructor
  · cases l with
    | nil =>
      rw [show pCommitAt [] = none from rfl] at hm
      cases hm
    | cons c cs =>
      simp only [commitPassFuel, hm, hr, ht]
  · intro day
    rfl

/-- Witness for C5 on the concrete commit line of the spec's scenario
(anchor set `[2]`, "today" = day 3): both fields become the identical
mapped token `Mon Jul 14 1969 12:00:00 GMT+0000 (UTC)` and the old
`--date` payload `x` is gone. -/
theorem commit_rewrite_witness :
    commitPassFuel (remapOne [2] 3) 1
        (("git commit --date='x' -m 'Mon Jan 07 2019 00:00:00 GMT-0500 (EST)'").toList) =
      .ok ((("git commit --date='").toList) ++
        (("Mon Jul 14 1969 12:00:00 GMT+0000 (UTC)").toList) ++
        (("' -m '").toList) ++
        (("Mon Jul 14 1969 12:00:00 GMT+0000 (UTC)").toList) ++ '\'' :: []) ∧
    fmtUTCNoon 0 = fmtDatePart 0 ++ (" 12:00:00 GMT+0000 (UTC)".toList) := by
  have h := commit_rewrite (remapOne [2] 3) 0
    (("git commit --date='x' -m 'Mon Jan 07 2019 00:00:00 GMT-0500 (EST)'").toList)
    (("git commit --date='").toList) (("x").toList) (("' -m '").toList)
    (("Mon Jan 07 2019 00:00:00 GMT-0500 (EST)").toList) []
    (("Mon Jul 14 1969 12:00:00 GMT+0000 (UTC)").toList) []
    (by decide) rfl rfl
  exact ⟨h.1, h.2 0⟩

end RemapRolling
